import Mathlib

/-!
Verification development for the GlobalPodcaster backend.

This file gives a shallow embedding, in Lean 4, of the feed-monitor agent's
episode-deduplication logic (`backend/agents/feed-monitor-agent/feed_monitor_mcp_server.py`
and `feed_utils.py`) and of the multi-agent pipeline orchestrator
(`backend/multi_agent_mcp_client.py`), together with theorems settling the
frozen specification claims about those components.

Conventions of the embedding:
* Python byte strings and 32-bit machine words are modelled as `Nat` with
  explicit reduction `% 2^32` where overflow matters.
* Effectful boundaries (the filesystem, feedparser, subprocess agents) are
  modelled as explicit parameters: a read of the persisted state file is a
  `StoredFile` value, a write is guarded by a `writeOk` oracle recording
  whether the `IOError` branch of the Python code fires, and each remote
  agent call is an `Except`-valued outcome fed to the stage function.
* Python dicts holding optional keys are modelled as structures with
  `Option` fields; `d.get(k, default)` becomes `Option.getD`.
-/

/-! ## Bit-level helpers (Python ints restricted to 32-bit words) -/

/-- `2^32`, the modulus for 32-bit word arithmetic. -/
def M32 : Nat := 4294967296

/-- 32-bit left rotation of a word `x < 2^32`. -/
def rotl32 (x s : Nat) : Nat :=
  (Nat.lor (Nat.shiftLeft x s) (Nat.shiftRight x (32 - s))) % M32

/-- 32-bit right rotation of a word `x < 2^32`. -/
def rotr32 (x s : Nat) : Nat :=
  (Nat.lor (Nat.shiftRight x s) (Nat.shiftLeft x (32 - s))) % M32

/-- 32-bit bitwise complement. -/
def not32 (x : Nat) : Nat := Nat.xor x 4294967295

/-- Splits a byte list into chunks of 64 bytes (the hash block size). -/
def toChunks (l : List Nat) : List (List Nat) :=
  if h : l = [] then []
  else l.take 64 :: toChunks (l.drop 64)
termination_by l.length
decreasing_by
  simp only [List.length_drop]
  have := List.length_pos.mpr h
  omega

/-- Bytes of a string under UTF-8, as Python's `str.encode()` produces. -/
def strBytes (s : String) : List Nat := s.toUTF8.toList.map UInt8.toNat

/-- Lower-case hexadecimal digit for `n < 16`. -/
def hexDigit (n : Nat) : Char := if n < 10 then Char.ofNat (48 + n) else Char.ofNat (87 + n)

/-- Two lower-case hex characters of one byte, as `hexdigest` renders it. -/
def byteHex (b : Nat) : List Char := [hexDigit (b / 16), hexDigit (b % 16)]

/-- Hex rendering of a byte list. -/
def bytesHex (l : List Nat) : List Char := l.flatMap byteHex

/-- Four little-endian bytes of a 32-bit word. -/
def toLE4 (x : Nat) : List Nat := [x % 256, x / 256 % 256, x / 65536 % 256, x / 16777216 % 256]

/-- Four big-endian bytes of a 32-bit word. -/
def toBE4 (x : Nat) : List Nat := [x / 16777216 % 256, x / 65536 % 256, x / 256 % 256, x % 256]

/-! ## MD5 (the digest behind `hashlib.md5` used by the feed-monitor server) -/

/-- The 64 MD5 round constants `K[i] = floor(2^32 * abs(sin(i+1)))`. -/
def md5K : List Nat :=
  [0xd76aa478, 0xe8c7b756, 0x242070db, 0xc1bdceee,
   0xf57c0faf, 0x4787c62a, 0xa8304613, 0xfd469501,
   0x698098d8, 0x8b44f7af, 0xffff5bb1, 0x895cd7be,
   0x6b901122, 0xfd987193, 0xa679438e, 0x49b40821,
   0xf61e2562, 0xc040b340, 0x265e5a51, 0xe9b6c7aa,
   0xd62f105d, 0x02441453, 0xd8a1e681, 0xe7d3fbc8,
   0x21e1cde6, 0xc33707d6, 0xf4d50d87, 0x455a14ed,
   0xa9e3e905, 0xfcefa3f8, 0x676f02d9, 0x8d2a4c8a,
   0xfffa3942, 0x8771f681, 0x6d9d6122, 0xfde5380c,
   0xa4beea44, 0x4bdecfa9, 0xf6bb4b60, 0xbebfbc70,
   0x289b7ec6, 0xeaa127fa, 0xd4ef3085, 0x04881d05,
   0xd9d4d039, 0xe6db99e5, 0x1fa27cf8, 0xc4ac5665,
   0xf4292244, 0x432aff97, 0xab9423a7, 0xfc93a039,
   0x655b59c3, 0x8f0ccc92, 0xffeff47d, 0x85845dd1,
   0x6fa87e4f, 0xfe2ce6e0, 0xa3014314, 0x4e0811a1,
   0xf7537e82, 0xbd3af235, 0x2ad7d2bb, 0xeb86d391]

/-- The 64 MD5 per-round left-rotation amounts. -/
def md5S : List Nat :=
  [7, 12, 17, 22, 7, 12, 17, 22, 7, 12, 17, 22, 7, 12, 17, 22,
   5, 9, 14, 20, 5, 9, 14, 20, 5, 9, 14, 20, 5, 9, 14, 20,
   4, 11, 16, 23, 4, 11, 16, 23, 4, 11, 16, 23, 4, 11, 16, 23,
   6, 10, 15, 21, 6, 10, 15, 21, 6, 10, 15, 21, 6, 10, 15, 21]

/-- MD5 message-word index for round `i`. -/
def md5G (i : Nat) : Nat :=
  if i < 16 then i
  else if i < 32 then (5 * i + 1) % 16
  else if i < 48 then (3 * i + 5) % 16
  else (7 * i) % 16

/-- MD5 round mixing function (F, G, H, I by round quarter). -/
def md5F (i b c d : Nat) : Nat :=
  if i < 16 then Nat.lor (Nat.land b c) (Nat.land (not32 b) d)
  else if i < 32 then Nat.lor (Nat.land d b) (Nat.land (not32 d) c)
  else if i < 48 then Nat.xor b (Nat.xor c d)
  else Nat.xor c (Nat.lor b (not32 d))

/-- Little-endian 32-bit word `j` of a 64-byte block. -/
def leWord (bytes : List Nat) (j : Nat) : Nat :=
  bytes.getD (4 * j) 0 + 256 * bytes.getD (4 * j + 1) 0 +
    65536 * bytes.getD (4 * j + 2) 0 + 16777216 * bytes.getD (4 * j + 3) 0

/-- One MD5 round on the running state `(a, b, c, d)`. -/
def md5Step (chunk : List Nat) (st : Nat × Nat × Nat × Nat) (i : Nat) : Nat × Nat × Nat × Nat :=
  let (a, b, c, d) := st
  let f := (md5F i b c d + a + md5K.getD i 0 + leWord chunk (md5G i)) % M32
  (d, (b + rotl32 f (md5S.getD i 0)) % M32, b, c)

/-- Processes one 64-byte block, folding the 64 rounds and re-adding the input state. -/
def md5Chunk (st : Nat × Nat × Nat × Nat) (chunk : List Nat) : Nat × Nat × Nat × Nat :=
  let (a, b, c, d) := (List.range 64).foldl (md5Step chunk) st
  ((st.1 + a) % M32, (st.2.1 + b) % M32, (st.2.2.1 + c) % M32, (st.2.2.2 + d) % M32)

/-- MD5 padding: `0x80`, zeros to 56 mod 64, then the bit length as 8 little-endian bytes. -/
def md5Pad (msg : List Nat) : List Nat :=
  let n := msg.length
  let k := (120 - ((n + 1) % 64)) % 64
  msg ++ [128] ++ List.replicate k 0 ++
    (List.range 8).map (fun j => Nat.shiftRight (8 * n) (8 * j) % 256)

/-- The MD5 compression over all blocks, from the standard initial state. -/
def md5_main (msg : List Nat) : Nat × Nat × Nat × Nat :=
  (toChunks (md5Pad msg)).foldl md5Chunk (0x67452301, 0xefcdab89, 0x98badcfe, 0x10325476)

/-- The 16 digest bytes: each state word rendered little-endian. -/
def wordsLE (st : Nat × Nat × Nat × Nat) : List Nat :=
  toLE4 st.1 ++ toLE4 st.2.1 ++ toLE4 st.2.2.1 ++ toLE4 st.2.2.2

/-- MD5 digest of a byte list. -/
def md5_digest_bytes (msg : List Nat) : List Nat := wordsLE (md5_main msg)

/-- `hashlib.md5(s.encode()).hexdigest()`: the full 32-character hex digest. -/
def md5_hexdigest (s : String) : String := String.mk (bytesHex (md5_digest_bytes (strBytes s)))

/-! ## SHA-256 (the digest behind `hashlib.sha256` used by `feed_utils.py`) -/

/-- The 64 SHA-256 round constants. -/
def sha256K : List Nat :=
  [1116352408, 1899447441, 3049323471, 3921009573,
   961987163, 1508970993, 2453635748, 2870763221,
   3624381080, 310598401, 607225278, 1426881987,
   1925078388, 2162078206, 2614888103, 3248222580,
   3835390401, 4022224774, 264347078, 604807628,
   770255983, 1249150122, 1555081692, 1996064986,
   2554220882, 2821834349, 2952996808, 3210313671,
   3336571891, 3584528711, 113926993, 338241895,
   666307205, 773529912, 1294757372, 1396182291,
   1695183700, 1986661051, 2177026350, 2456956037,
   2730485921, 2820302411, 3259730800, 3345764771,
   3516065817, 3600352804, 4094571909, 275423344,
   430227734, 506948616, 659060556, 883997877,
   958139571, 1322822218, 1537002063, 1747873779,
   1955562222, 2024104815, 2227730452, 2361852424,
   2428436474, 2756734187, 3204031479, 3329325298]

/-- Big-endian 32-bit word `j` of a 64-byte block. -/
def beWord (bytes : List Nat) (j : Nat) : Nat :=
  16777216 * bytes.getD (4 * j) 0 + 65536 * bytes.getD (4 * j + 1) 0 +
    256 * bytes.getD (4 * j + 2) 0 + bytes.getD (4 * j + 3) 0

/-- SHA-256 small sigma 0. -/
def ssig0 (x : Nat) : Nat := Nat.xor (rotr32 x 7) (Nat.xor (rotr32 x 18) (Nat.shiftRight x 3))

/-- SHA-256 small sigma 1. -/
def ssig1 (x : Nat) : Nat := Nat.xor (rotr32 x 17) (Nat.xor (rotr32 x 19) (Nat.shiftRight x 10))

/-- SHA-256 big sigma 0. -/
def bsig0 (x : Nat) : Nat := Nat.xor (rotr32 x 2) (Nat.xor (rotr32 x 13) (rotr32 x 22))

/-- SHA-256 big sigma 1. -/
def bsig1 (x : Nat) : Nat := Nat.xor (rotr32 x 6) (Nat.xor (rotr32 x 11) (rotr32 x 25))

/-- Extends the 16-word message schedule by `n` further words. -/
def schedExtend : List Nat → Nat → List Nat
  | w, 0 => w
  | w, n + 1 =>
    let t := w.length
    let next := (ssig1 (w.getD (t - 2) 0) + w.getD (t - 7) 0 +
        ssig0 (w.getD (t - 15) 0) + w.getD (t - 16) 0) % M32
    schedExtend (w ++ [next]) n

/-- The 64-word SHA-256 message schedule of one block. -/
def sha256Sched (chunk : List Nat) : List Nat :=
  schedExtend ((List.range 16).map (beWord chunk)) 48

/-- The eight 32-bit working variables of the SHA-256 compression. -/
structure Sha256State where
  a : Nat
  b : Nat
  c : Nat
  d : Nat
  e : Nat
  f : Nat
  g : Nat
  h : Nat

/-- One SHA-256 compression round. -/
def sha256Round (w : List Nat) (st : Sha256State) (i : Nat) : Sha256State :=
  let ch := Nat.xor (Nat.land st.e st.f) (Nat.land (not32 st.e) st.g)
  let maj := Nat.xor (Nat.land st.a st.b) (Nat.xor (Nat.land st.a st.c) (Nat.land st.b st.c))
  let t1 := (st.h + bsig1 st.e + ch + sha256K.getD i 0 + w.getD i 0) % M32
  let t2 := (bsig0 st.a + maj) % M32
  { a := (t1 + t2) % M32, b := st.a, c := st.b, d := st.c,
    e := (st.d + t1) % M32, f := st.e, g := st.f, h := st.g }

/-- Processes one 64-byte block: 64 rounds then word-wise re-addition of the input state. -/
def sha256Chunk (st : Sha256State) (chunk : List Nat) : Sha256State :=
  let w := sha256Sched chunk
  let fin := (List.range 64).foldl (sha256Round w) st
  { a := (st.a + fin.a) % M32, b := (st.b + fin.b) % M32,
    c := (st.c + fin.c) % M32, d := (st.d + fin.d) % M32,
    e := (st.e + fin.e) % M32, f := (st.f + fin.f) % M32,
    g := (st.g + fin.g) % M32, h := (st.h + fin.h) % M32 }

/-- SHA-256 padding: like MD5's but the bit length is appended big-endian. -/
def sha256Pad (msg : List Nat) : List Nat :=
  let n := msg.length
  let k := (120 - ((n + 1) % 64)) % 64
  msg ++ [128] ++ List.replicate k 0 ++
    (List.range 8).map (fun j => Nat.shiftRight (8 * n) (8 * (7 - j)) % 256)

/-- The SHA-256 compression over all blocks, from the standard initial state. -/
def sha256_main (msg : List Nat) : Sha256State :=
  (toChunks (sha256Pad msg)).foldl sha256Chunk
    { a := 1779033703, b := 3144134277, c := 1013904242, d := 2773480762,
      e := 1359893119, f := 2600822924, g := 528734635, h := 1541459225 }

/-- The 32 digest bytes: each state word rendered big-endian. -/
def sha256_digest_bytes (msg : List Nat) : List Nat :=
  let st := sha256_main msg
  toBE4 st.a ++ toBE4 st.b ++ toBE4 st.c ++ toBE4 st.d ++
    toBE4 st.e ++ toBE4 st.f ++ toBE4 st.g ++ toBE4 st.h

/-- `hashlib.sha256(s.encode('utf-8')).hexdigest()`: the full 64-character hex digest. -/
def sha256_hexdigest (s : String) : String :=
  String.mk (bytesHex (sha256_digest_bytes (strBytes s)))

/-! ## Insertion-order set helpers (modelling Python `set` construction and update) -/

/-- Folds a list into an accumulator keeping only first occurrences, preserving order. -/
def addNew : List String → List String → List String
  | acc, [] => acc
  | acc, g :: gs => addNew (if g ∈ acc then acc else acc ++ [g]) gs

/-- Canonical model of `set(cur); .update(new)`: deduplicate `cur`, then add the
unseen elements of `new`, in encounter order. -/
def setUnion (cur new : List String) : List String := addNew (addNew [] cur) new

/-! ## Feed-monitor MCP server (`feed_monitor_mcp_server.py`) -/

namespace FeedMonitorServer

/-- `get_feed_id`: the first 12 hex characters of the MD5 digest of the feed URL
(`hashlib.md5(feed_url.encode()).hexdigest()[:12]`). -/
def get_feed_id (feed_url : String) : String :=
  String.mk ((bytesHex (md5_digest_bytes (strBytes feed_url))).take 12)

/-- The per-feed dedup record persisted as `last_check_<feed_id>.json`. -/
structure LastCheck where
  episodes : List String
  last_check : Nat
  deriving DecidableEq

/-- The record `load_last_check` falls back to. -/
def emptyLastCheck : LastCheck := { episodes := [], last_check := 0 }

/-- What a read of the state file can observe: absent file, `IOError` while reading,
`json.JSONDecodeError` on its content, or a well-formed record. (The repository only
ever writes records of `LastCheck` shape via `save_last_check`, so well-formed content
is modelled as a `LastCheck` value.) -/
inductive StoredFile where
  | missing
  | unreadable
  | invalidJson
  | parsed (data : LastCheck)
  deriving DecidableEq

/-- `load_last_check`: returns the parsed record when the file exists and parses;
on a missing file, or on `json.JSONDecodeError`/`IOError` (both caught), returns
`{"episodes": [], "last_check": 0}`. -/
def load_last_check : StoredFile → LastCheck
  | .parsed d => d
  | _ => emptyLastCheck

/-- The persisted state directory: one stored file per feed id. -/
def Store := String → StoredFile

/-- Reading the record of one feed through `load_last_check`. -/
def loadRecord (store : Store) (feed_id : String) : LastCheck :=
  load_last_check (store feed_id)

/-- `save_last_check`: writes `{"episodes": episodes, "last_check": timestamp}`.
The Python body catches `IOError` and only logs it, so on a failed write
(`writeOk = false`) the store is left unchanged and no error propagates. -/
def save_last_check (writeOk : Bool) (store : Store) (feed_id : String)
    (episodes : List String) (timestamp : Nat) : Store :=
  if writeOk then
    fun x => if x = feed_id then .parsed { episodes := episodes, last_check := timestamp }
             else store x
  else store

/-- One parsed feed entry as `feedparser` hands it over; absent dict keys are `none`. -/
structure FeedEntry where
  id : Option String
  link : Option String
  title : Option String
  summary : Option String
  published : Option String
  deriving DecidableEq

/-- An episode dict as built by `check_feed_for_new_episodes`; the `feed_url` and
`feed_id` keys are only added to new episodes at the end. -/
structure Episode where
  guid : String
  title : String
  description : String
  link : String
  published : String
  feed_title : String
  feed_url : Option String
  feed_id : Option String
  deriving DecidableEq

/-- `entry.get('id', entry.get('link', ''))`. -/
def entryGuid (e : FeedEntry) : String := e.id.getD (e.link.getD "")

/-- The episode dict built from one entry (inside the `if guid:` branch). -/
def entryEpisode (feed_title : String) (e : FeedEntry) : Episode :=
  { guid := entryGuid e,
    title := e.title.getD "No Title",
    description := e.summary.getD "",
    link := e.link.getD "",
    published := e.published.getD "",
    feed_title := feed_title,
    feed_url := none,
    feed_id := none }

/-- `current_episodes`: the entries with a non-empty guid, in feed order. -/
def currentEpisodes (feed_title : String) (entries : List FeedEntry) : List Episode :=
  (entries.filter (fun e => entryGuid e ≠ "")).map (entryEpisode feed_title)

/-- `check_feed_for_new_episodes`, from the point where the feed has parsed
(`feed.bozo` false): the parsed entries and the stored state file are passed as
arguments in place of the `feedparser.parse` and filesystem effects. Computes the
set difference `current_guids - previous_guids` and keeps the current episodes whose
guid lies in it, then attaches `feed_url`/`feed_id` metadata to the new episodes. -/
def check_feed_for_new_episodes (feed_url feed_title : String)
    (entries : List FeedEntry) (stored : StoredFile) : List Episode :=
  let feed_id := get_feed_id feed_url
  let current_episodes := currentEpisodes feed_title entries
  let current_guids := current_episodes.map (·.guid)
  let previous_guids := (load_last_check stored).episodes
  let new_episodes := current_episodes.filter
    (fun ep => ep.guid ∈ current_guids ∧ ep.guid ∉ previous_guids)
  new_episodes.map (fun ep => { ep with feed_url := some feed_url, feed_id := some feed_id })

/-- A tool reply: either the `{"error": ...}` / `{"status": "error", ...}` payload
or the successful JSON payload. -/
inductive ToolResult (α : Type) where
  | error (msg : String)
  | ok (data : α)
  deriving DecidableEq

/-- The success payload of the `get_new_episodes` tool. -/
structure PageData where
  page : Nat
  per_page : Nat
  total_episodes : Nat
  total_pages : Nat
  episodes : List Episode
  deriving DecidableEq

/-- The `get_new_episodes` tool branch of `handle_call_tool`, given the已 collected
`all_new_episodes` list. `per_page` is clamped to at most 50; the slice
`[start_idx:end_idx]` is modelled by `drop`/`take` (pages are 1-based, the claim's
domain; Python's negative-index slicing is outside the model). With an effective
page size of 0 the `total_pages` division raises `ZeroDivisionError`, which the
handler catches and converts to an error payload. -/
def get_new_episodes (all_new_episodes : List Episode) (page per_page : Nat) :
    ToolResult PageData :=
  let pp := min per_page 50
  if pp = 0 then .error "integer division or modulo by zero"
  else
    let total_episodes := all_new_episodes.length
    let start_idx := (page - 1) * pp
    let page_episodes := (all_new_episodes.drop start_idx).take pp
    .ok { page := page, per_page := pp, total_episodes := total_episodes,
          total_pages := (total_episodes + pp - 1) / pp, episodes := page_episodes }

/-- The episodes field of a page reply (empty on the error payload). -/
def pageEpisodesOf : ToolResult PageData → List Episode
  | .ok d => d.episodes
  | .error _ => []

/-- An episode reference given to `mark_episodes_processed`; each field models one
dict key, `none` when the key is absent. -/
structure EpisodeRef where
  guid : Option String
  feed_url : Option String
  feed_id : Option String
  deriving DecidableEq

/-- The reply of the `mark_episodes_processed` tool. -/
inductive MarkOutput where
  | error (msg : String)
  | success (processed_episodes feeds_updated : Nat)
  deriving DecidableEq

/-- Python truthiness of `ep.get("feed_id")`: false for an absent key and for `""`. -/
def truthy : Option String → Bool
  | some s => s ≠ ""
  | none => false

/-- Appends one guid to the group of `fid`, creating the group at the end if new —
Python dict insertion order. -/
def addToGroup : List (String × List String) → String → String → List (String × List String)
  | [], fid, g => [(fid, [g])]
  | (f, gs) :: rest, fid, g =>
    if f = fid then (f, gs ++ [g]) :: rest
    else (f, gs) :: addToGroup rest fid g

/-- The `episodes_by_feed` grouping loop: episodes without a truthy `feed_id` are
skipped; `ep["guid"]` on an episode lacking the key raises `KeyError`, which the
surrounding `try` turns into an error reply. -/
def groupEpisodes : List EpisodeRef → List (String × List String) →
    Except String (List (String × List String))
  | [], acc => .ok acc
  | ep :: rest, acc =>
    match ep.feed_id with
    | some fid =>
      if fid ≠ "" then
        match ep.guid with
        | some g => groupEpisodes rest (addToGroup acc fid g)
        | none => .error "KeyError: guid"
      else groupEpisodes rest acc
    | none => groupEpisodes rest acc

/-- The per-feed update loop: load the record, union the guids into the episode set,
save with the current time, and accumulate `processed_count += len(guids)`. -/
def applyGroups (writeOk : String → Bool) (now : Nat) :
    Store → List (String × List String) → Store × Nat
  | store, [] => (store, 0)
  | store, (fid, gs) :: rest =>
    let merged := setUnion (loadRecord store fid).episodes gs
    let store' := save_last_check (writeOk fid) store fid merged now
    ((applyGroups writeOk now store' rest).1,
      gs.length + (applyGroups writeOk now store' rest).2)

/-- The `mark_episodes_processed` branch of `handle_call_tool`: an empty episode
list is rejected with `{"error": "episodes list is required"}`; otherwise the
episodes are grouped by feed id and each touched feed's record is updated. Returns
the resulting store and the reply payload. -/
def mark_episodes_processed (writeOk : String → Bool) (now : Nat) (store : Store)
    (episodes : List EpisodeRef) : Store × MarkOutput :=
  if episodes.isEmpty then (store, .error "episodes list is required")
  else
    match groupEpisodes episodes [] with
    | .error e => (store, .error e)
    | .ok groups =>
      ((applyGroups writeOk now store groups).1,
        .success (applyGroups writeOk now store groups).2 groups.length)

end FeedMonitorServer

/-! ## Feed utilities (`feed_utils.py`, Firestore-backed variant) -/

namespace FeedUtils

/-- `get_feed_id`: the full SHA-256 hex digest of the feed URL. -/
def get_feed_id (feed_url : String) : String := sha256_hexdigest feed_url

/-- One parsed entry; only the keys the function consults are modelled. -/
structure Entry where
  guid : Option String
  id : Option String
  link : Option String
  deriving DecidableEq

/-- Python `a or b` over optional strings: the first truthy (present, non-empty) wins. -/
def pick (o : Option String) (alt : String) : String :=
  match o with
  | some s => if s = "" then alt else s
  | none => alt

/-- `entry.get('guid') or entry.get('id') or entry.get('link')` (empty when all falsy). -/
def entryGuid (e : Entry) : String := pick e.guid (pick e.id (pick e.link ""))

/-- The episode dict `{**ep, 'feed_url': ..., 'feed_id': ...}` with its resolved guid. -/
structure UtilEpisode where
  entry : Entry
  guid : String
  feed_url : String
  feed_id : String
  deriving DecidableEq

/-- `check_feed_for_new_episodes` of `feed_utils.py`, from the point where the feed
has parsed: the parsed entries and the guids already stored in the
`processed_episodes` subcollection are passed as arguments in place of the
`feedparser.parse` and Firestore effects. Entries with no usable guid are dropped;
of the rest, those whose guid is not yet processed are returned in feed order with
`feed_url`/`feed_id` metadata attached. -/
def check_feed_for_new_episodes (feed_url : String) (entries : List Entry)
    (processed_guids : List String) : List UtilEpisode :=
  let feed_id := get_feed_id feed_url
  let withGuid := (entries.filter (fun e => entryGuid e ≠ "")).map
    (fun e => (e, entryGuid e))
  (withGuid.filter (fun p => p.2 ∉ processed_guids)).map
    (fun p => { entry := p.1, guid := p.2, feed_url := feed_url, feed_id := feed_id })

end FeedUtils

/-! ## Pipeline orchestrator (`multi_agent_mcp_client.py`) -/

namespace Orchestrator

/-- Last `n` characters of a string: Python `s[-n:]` (whole string when shorter). -/
def lastChars (n : Nat) (s : String) : String :=
  String.mk (s.data.drop (s.data.length - n))

/-- Result dict of `execute_transcription`. The Python dict also carries a float
`confidence` key (always `0.85`); floating point is outside the model. -/
structure TranscriptionResult where
  success : Bool
  agent : String
  transcription : String
  language : String
  simulated : Bool
  deriving DecidableEq

/-- `execute_transcription`: the `try` body only simulates (external transcription
APIs are not wired up), and the `except Exception` branch likewise returns a
simulated fallback instead of an error. The effectful body's outcome (`.ok` when no
exception was raised, `.error` otherwise) is the first argument. -/
def execute_transcription (attempt : Except String Unit) (audio_url : String) :
    TranscriptionResult :=
  match attempt with
  | .ok _ =>
    { success := true, agent := "transcription",
      transcription :=
        "[SIMULADO] Audio transcrito para episodio: contenido de ejemplo " ++
          lastChars 20 audio_url,
      language := "auto", simulated := true }
  | .error _ =>
    { success := true, agent := "transcription",
      transcription :=
        "[SIMULADO] Audio transcrito: contenido de ejemplo para episodio " ++
          lastChars 20 audio_url,
      language := "auto", simulated := true }

/-- The parsed JSON reply of the translation agent (`translation_data`); each key
may be absent. -/
structure TranslationData where
  success : Option Bool
  translated_text : Option String
  source_language : Option String
  target_language : Option String
  simulated : Option Bool
  deriving DecidableEq

/-- Result dict of `execute_translation`. -/
structure TranslationResult where
  success : Bool
  agent : String
  translated_text : String
  source_language : String
  target_language : String
  simulated : Bool
  deriving DecidableEq

/-- `execute_translation`: on a successful agent round-trip the reply dict is read
with `.get` defaults; on any exception the `except Exception` branch substitutes a
simulated fallback with `success: True, simulated: True`. -/
def execute_translation (attempt : Except String TranslationData) (text : String)
    (target_lang : String) : TranslationResult :=
  match attempt with
  | .ok d =>
    { success := d.success.getD false, agent := "translation",
      translated_text := d.translated_text.getD "",
      source_language := d.source_language.getD "unknown",
      target_language := d.target_language.getD target_lang,
      simulated := d.simulated.getD false }
  | .error _ =>
    { success := true, agent := "translation",
      translated_text :=
        "[SIMULADO] Texto traducido: contenido traducido de ejemplo al idioma " ++
          target_lang,
      source_language := "auto", target_language := target_lang, simulated := true }

/-- The parsed JSON reply of the TTS agent (`tts_data`). -/
structure TtsData where
  success : Option Bool
  audio_file : Option String
  audio_url : Option String
  voice_id : Option String
  simulated : Option Bool
  deriving DecidableEq

/-- Result dict of `execute_tts`. -/
structure TtsResult where
  success : Bool
  agent : String
  audio_file : String
  audio_url : String
  voice_used : String
  text_length : Nat
  simulated : Bool
  deriving DecidableEq

/-- `execute_tts`: like `execute_translation`, with a simulated audio payload in
the fallback branch. -/
def execute_tts (attempt : Except String TtsData) (text : String) (voice : String) :
    TtsResult :=
  match attempt with
  | .ok d =>
    { success := d.success.getD false, agent := "tts",
      audio_file := d.audio_file.getD "",
      audio_url := d.audio_url.getD "",
      voice_used := d.voice_id.getD voice,
      text_length := text.length,
      simulated := d.simulated.getD false }
  | .error _ =>
    { success := true, agent := "tts",
      audio_file := "/tmp/simulated_audio_" ++ voice ++ "_" ++ toString text.length ++ ".mp3",
      audio_url := "https://example.com/simulated/" ++ voice ++ "_output.mp3",
      voice_used := voice, text_length := text.length, simulated := true }

/-- One episode dict as the orchestrator receives it from the feed monitor. -/
structure PipelineEpisode where
  guid : Option String
  title : Option String
  link : Option String
  audio_url : Option String
  feed_url : Option String
  feed_id : Option String
  deriving DecidableEq

/-- `episode.get("audio_url") or episode.get("link") or f"https://example.com/podcast/(guid).mp3"`. -/
def audioUrlOf (ep : PipelineEpisode) : String :=
  FeedUtils.pick ep.audio_url (FeedUtils.pick ep.link
    ("https://example.com/podcast/" ++ ep.guid.getD "unknown" ++ ".mp3"))

/-- The outcome of each stage's effectful body for one episode, fed to the stage
functions (`.error` models an exception raised inside the stage's `try`). -/
structure StageAttempts where
  transcription : Except String Unit
  translation : Except String TranslationData
  tts : Except String TtsData

/-- One entry of `pipeline_results["steps"]`. The `mark` entry records the
`episodes` argument the orchestrator hands to the `mark_episodes_processed` tool. -/
inductive StepRecord where
  | feedCheck (success : Bool) (new_episodes_count : Nat)
  | transcription (r : TranscriptionResult)
  | translation (r : TranslationResult)
  | tts (r : TtsResult)
  | mark (episodes : List FeedMonitorServer.EpisodeRef)
  deriving DecidableEq

/-- The `{guid, feed_url, feed_id}` dict the client's `mark_episodes_processed`
wrapper builds from one episode. -/
def toRef (ep : PipelineEpisode) : FeedMonitorServer.EpisodeRef :=
  { guid := ep.guid, feed_url := ep.feed_url, feed_id := ep.feed_id }

/-- The per-episode body of the pipeline loop: transcribe; translate only if the
transcription result has `success`; synthesize only if the translation result has
`success`. Returns the step records this episode appends. -/
def episodeSteps (att : PipelineEpisode → StageAttempts) (ep : PipelineEpisode) :
    List StepRecord :=
  let tr := execute_transcription (att ep).transcription (audioUrlOf ep)
  if tr.success then
    let tl := execute_translation (att ep).translation tr.transcription "en"
    if tl.success then
      let ts := execute_tts (att ep).tts tl.translated_text "default"
      [.transcription tr, .translation tl, .tts ts]
    else [.transcription tr, .translation tl]
  else [.transcription tr]

/-- `episodes_to_process`: the first page truncated to 5, extended from page 2
(`moreEpisodes`, itself truncated to the missing count) when the first page
under-fills the batch and more pages exist. -/
def episodesToProcess (new_episodes : List PipelineEpisode) (total_pages : Nat)
    (moreEpisodes : List PipelineEpisode) : List PipelineEpisode :=
  let base := new_episodes.take 5
  if base.length < 5 ∧ total_pages > 1 then
    base ++ moreEpisodes.take (5 - base.length)
  else base

/-- Outcome of the feed-check step (`execute_feed_check`): failure, or success with
the first page of episodes, the reported new-episode count and the page count. -/
inductive FeedCheckOutcome where
  | failure
  | ok (new_episodes : List PipelineEpisode) (new_episodes_count : Nat) (total_pages : Nat)
  deriving DecidableEq

/-- The aggregate `pipeline_results` of one orchestration run (the wall-clock
timing field is outside the model). -/
structure PipelineRun where
  success : Bool
  steps : List StepRecord
  episodes_processed : Nat
  deriving DecidableEq

/-- `execute_full_pipeline`: feed check; early return on feed-check failure or on
zero new episodes (no marking in either case); otherwise run the per-episode stage
loop over `episodes_to_process` and then call `mark_episodes_processed` once with
the refs of that whole batch. -/
def execute_full_pipeline (feed : FeedCheckOutcome)
    (moreEpisodes : List PipelineEpisode) (att : PipelineEpisode → StageAttempts) :
    PipelineRun :=
  match feed with
  | .failure =>
    { success := false, steps := [.feedCheck false 0], episodes_processed := 0 }
  | .ok new_episodes count total_pages =>
    if count = 0 then
      { success := true, steps := [.feedCheck true count], episodes_processed := 0 }
    else
      let episodes_to_process := episodesToProcess new_episodes total_pages moreEpisodes
      { success := true,
        steps := .feedCheck true count ::
          episodes_to_process.flatMap (episodeSteps att) ++
            [.mark (episodes_to_process.map toRef)],
        episodes_processed := episodes_to_process.length }

/-- All episode refs passed to any `mark_episodes_processed` invocation of a run. -/
def markedRefs (run : PipelineRun) : List FeedMonitorServer.EpisodeRef :=
  run.steps.flatMap (fun s => match s with | .mark eps => eps | _ => [])

end Orchestrator

/-! ## Derived observation functions used by the theorems -/

namespace FeedMonitorServer

/-- The feed ids of a grouping, in insertion order (Python dict key order). -/
def groupKeys (groups : List (String × List String)) : List String := groups.map Prod.fst

/-- Looks up the guid list grouped under one feed id. -/
def findGroup (fid : String) : List (String × List String) → Option (List String)
  | [] => none
  | (f, gs) :: rest => if f = fid then some gs else findGroup fid rest

/-- The total number of grouped guids (what `processed_count` sums up). -/
def totalGuids (groups : List (String × List String)) : Nat :=
  (groups.map (fun p => p.2.length)).sum

/-- The feed ids of the episodes that pass the `if feed_id:` truthiness test,
in input order, with repetitions. -/
def truthyFids (episodes : List EpisodeRef) : List String :=
  episodes.filterMap (fun ep =>
    match ep.feed_id with
    | some fid => if fid ≠ "" then some fid else none
    | none => none)

end FeedMonitorServer

/-! ## Concrete instances used as counterexample and witness inputs -/

/-- A pipeline episode whose translation-agent reply will be a failure. -/
def cexEpisode : Orchestrator.PipelineEpisode :=
  { guid := some "guid-1", title := some "Episodio 1",
    link := some "https://example.com/e1", audio_url := none,
    feed_url := some "https://example.com/feed.xml", feed_id := some "feed-1" }

/-- A translation-agent reply that is a simulated fallback with `success: false`. -/
def cexTranslationReply : Orchestrator.TranslationData :=
  { success := some false, translated_text := some "",
    source_language := some "es", target_language := some "en",
    simulated := some true }

/-- Stage outcomes: every agent round-trip completes, the translation agent
replying with the failed simulated fallback above. -/
def cexAttempts : Orchestrator.PipelineEpisode → Orchestrator.StageAttempts := fun _ =>
  { transcription := .ok (),
    translation := .ok cexTranslationReply,
    tts := .ok { success := some true, audio_file := some "a.mp3",
                 audio_url := some "https://example.com/a.mp3",
                 voice_id := some "v", simulated := some true } }

/-- A feed entry with a plain id, used as witness input. -/
def witEntry : FeedMonitorServer.FeedEntry :=
  { id := some "g1", link := some "https://example.com/e1",
    title := some "T1", summary := some "S1", published := some "P1" }

/-- An episode reference carrying all three keys, used as witness input. -/
def witRef : FeedMonitorServer.EpisodeRef :=
  { guid := some "g1", feed_url := some "https://example.com/feed.xml",
    feed_id := some "feed-1" }

/-- An episode reference lacking the `feed_id` key, used as counterexample input. -/
def witRefNoFid : FeedMonitorServer.EpisodeRef :=
  { guid := some "g1", feed_url := some "https://example.com/feed.xml",
    feed_id := none }

/-- The all-files-missing state directory. -/
def emptyStore : FeedMonitorServer.Store := fun _ => .missing

/-! ## Helper lemmas: insertion-order sets -/

theorem addNew_mem (l : List String) : ∀ acc x, x ∈ addNew acc l ↔ x ∈ acc ∨ x ∈ l := by
  induction l with
  | nil => intro acc x; simp [addNew]
  | cons g gs ih =>
    intro acc x
    simp only [addNew]
    rw [ih]
    by_cases hg : g ∈ acc
    · simp only [if_pos hg, List.mem_cons]
      constructor
      · rintro (h | h)
        · exact Or.inl h
        · exact Or.inr (Or.inr h)
      · rintro (h | rfl | h)
        · exact Or.inl h
        · exact Or.inl hg
        · exact Or.inr h
    · simp only [if_neg hg, List.mem_append, List.mem_singleton, List.mem_cons]
      tauto

theorem addNew_nodup (l : List String) : ∀ acc, acc.Nodup → (addNew acc l).Nodup := by
  induction l with
  | nil => intro acc h; simpa [addNew] using h
  | cons g gs ih =>
    intro acc h
    simp only [addNew]
    by_cases hg : g ∈ acc
    · simpa [if_pos hg] using ih acc h
    · rw [if_neg hg]
      refine ih _ ?_
      rw [List.nodup_append]
      refine ⟨h, List.nodup_singleton g, ?_⟩
      intro x hx hx'
      rw [List.mem_singleton] at hx'
      exact hg (hx' ▸ hx)

theorem addNew_eq_of_subset (l : List String) :
    ∀ acc, (∀ x ∈ l, x ∈ acc) → addNew acc l = acc := by
  induction l with
  | nil => intro acc _; rfl
  | cons g gs ih =>
    intro acc h
    have hg : g ∈ acc := h g (List.mem_cons_self g gs)
    simp only [addNew, if_pos hg]
    exact ih acc (fun x hx => h x (List.mem_cons_of_mem g hx))

theorem addNew_eq_append (l : List String) :
    ∀ acc, (acc ++ l).Nodup → addNew acc l = acc ++ l := by
  induction l with
  | nil => intro acc _; simp [addNew]
  | cons g gs ih =>
    intro acc h
    have hg : g ∉ acc := by
      intro hmem
      rw [List.nodup_append] at h
      exact h.2.2 hmem (List.mem_cons_self g gs)
    simp only [addNew, if_neg hg]
    rw [ih (acc ++ [g]) (by simpa using h)]
    simp

theorem setUnion_mem (c n : List String) (x : String) :
    x ∈ setUnion c n ↔ x ∈ c ∨ x ∈ n := by
  unfold setUnion
  rw [addNew_mem, addNew_mem]
  simp

theorem setUnion_nodup (c n : List String) : (setUnion c n).Nodup :=
  addNew_nodup n _ (addNew_nodup c [] List.nodup_nil)

theorem setUnion_idem (c n : List String) : setUnion (setUnion c n) n = setUnion c n := by
  have h1 : addNew [] (setUnion c n) = setUnion c n := by
    have := addNew_eq_append (setUnion c n) [] (by simpa using setUnion_nodup c n)
    simpa using this
  show addNew (addNew [] (setUnion c n)) n = setUnion c n
  rw [h1]
  exact addNew_eq_of_subset n _ (fun x hx => (setUnion_mem c n x).mpr (Or.inr hx))

/-! ## Helper lemmas: digest shapes -/

theorem wordsLE_length (st : Nat × Nat × Nat × Nat) : (wordsLE st).length = 16 := rfl

theorem md5_digest_bytes_length (msg : List Nat) : (md5_digest_bytes msg).length = 16 := rfl

theorem sha256_digest_bytes_length (msg : List Nat) :
    (sha256_digest_bytes msg).length = 32 := rfl

theorem bytesHex_length (l : List Nat) : (bytesHex l).length = 2 * l.length := by
  induction l with
  | nil => rfl
  | cons b bs ih =>
    simp only [bytesHex, List.flatMap_cons] at ih ⊢
    simp only [List.length_append, byteHex, List.length_cons, List.length_nil, ih]
    omega

theorem string_mk_length (l : List Char) : (String.mk l).length = l.length := rfl

theorem md5_hexdigest_length (s : String) : (md5_hexdigest s).length = 32 := by
  show (String.mk (bytesHex (md5_digest_bytes (strBytes s)))).length = 32
  rw [string_mk_length, bytesHex_length, md5_digest_bytes_length]

theorem sha256_hexdigest_length (s : String) : (sha256_hexdigest s).length = 64 := by
  show (String.mk (bytesHex (sha256_digest_bytes (strBytes s)))).length = 64
  rw [string_mk_length, bytesHex_length, sha256_digest_bytes_length]

theorem get_feed_id_server_length (u : String) :
    (FeedMonitorServer.get_feed_id u).length = 12 := by
  show (String.mk ((bytesHex (md5_digest_bytes (strBytes u))).take 12)).length = 12
  rw [string_mk_length, List.length_take, bytesHex_length, md5_digest_bytes_length]
  rfl



/-! ## Helper lemmas: grouping and store updates -/

namespace FeedMonitorServer

theorem addToGroup_keys (fid g : String) :
    ∀ acc, groupKeys (addToGroup acc fid g) =
      if fid ∈ groupKeys acc then groupKeys acc else groupKeys acc ++ [fid] := by
  intro acc
  induction acc with
  | nil => simp [addToGroup, groupKeys]
  | cons p rest ih =>
    obtain ⟨f, gs⟩ := p
    by_cases hf : f = fid
    · simp only [addToGroup, if_pos hf, groupKeys, List.map_cons]
      rw [if_pos (by simp [hf])]
    · have hne : fid ≠ f := fun h => hf h.symm
      simp only [addToGroup, if_neg hf]
      simp only [groupKeys, List.map_cons] at ih ⊢
      rw [ih]
      by_cases hk : fid ∈ List.map Prod.fst rest
      · simp [hk]
      · simp [hk, hne]

theorem addToGroup_total (fid g : String) :
    ∀ acc, totalGuids (addToGroup acc fid g) = totalGuids acc + 1 := by
  intro acc
  induction acc with
  | nil => simp [addToGroup, totalGuids]
  | cons p rest ih =>
    obtain ⟨f, gs⟩ := p
    by_cases hf : f = fid
    · simp only [addToGroup, if_pos hf, totalGuids, List.map_cons, List.sum_cons,
        List.length_append, List.length_singleton]
      omega
    · simp only [addToGroup, if_neg hf, totalGuids, List.map_cons, List.sum_cons] at ih ⊢
      omega

theorem groupEpisodes_ok (eps : List EpisodeRef)
    (h : ∀ ep ∈ eps, truthy ep.feed_id → ep.guid.isSome) :
    ∀ acc, ∃ groups, groupEpisodes eps acc = .ok groups := by
  induction eps with
  | nil => intro acc; exact ⟨acc, rfl⟩
  | cons ep rest ih =>
    intro acc
    have hrest : ∀ e ∈ rest, truthy e.feed_id → e.guid.isSome :=
      fun e he => h e (List.mem_cons_of_mem ep he)
    match hfid : ep.feed_id with
    | none => simpa only [groupEpisodes, hfid] using ih hrest acc
    | some fid =>
      by_cases hemp : fid ≠ ""
      · have htr : truthy ep.feed_id := by simp [truthy, hfid, hemp]
        have hg := h ep (List.mem_cons_self ep rest) htr
        match hguid : ep.guid with
        | none => rw [hguid] at hg; simp [Option.isSome] at hg
        | some g =>
          simp only [groupEpisodes, hfid, if_pos hemp, hguid]
          exact ih hrest (addToGroup acc fid g)
      · rw [not_not] at hemp
        simp only [groupEpisodes, hfid, hemp, ne_eq, not_true_eq_false, if_false]
        exact ih hrest acc

theorem groupEpisodes_keys (eps : List EpisodeRef) :
    ∀ acc groups, groupEpisodes eps acc = .ok groups →
      groupKeys groups = addNew (groupKeys acc) (truthyFids eps) := by
  induction eps with
  | nil =>
    intro acc groups h
    cases h
    simp [truthyFids, addNew]
  | cons ep rest ih =>
    intro acc groups h
    match hfid : ep.feed_id with
    | none =>
      simp only [groupEpisodes, hfid] at h
      rw [ih acc groups h]
      simp [truthyFids, hfid]
    | some fid =>
      by_cases hemp : fid ≠ ""
      · match hguid : ep.guid with
        | none =>
          simp only [groupEpisodes, hfid, if_pos hemp, hguid] at h
          exact Except.noConfusion h
        | some g =>
          simp only [groupEpisodes, hfid, if_pos hemp, hguid] at h
          rw [ih _ groups h, addToGroup_keys]
          have htf : truthyFids (ep :: rest) = fid :: truthyFids rest := by
            simp [truthyFids, hfid, hemp]
          rw [htf]
          rfl
      · rw [not_not] at hemp
        simp only [groupEpisodes, hfid, hemp, ne_eq, not_true_eq_false, if_false] at h
        rw [ih acc groups h]
        simp [truthyFids, hfid, hemp]

theorem groupEpisodes_total (eps : List EpisodeRef) :
    ∀ acc groups, groupEpisodes eps acc = .ok groups →
      totalGuids groups = totalGuids acc +
        (eps.filter (fun ep => truthy ep.feed_id)).length := by
  induction eps with
  | nil =>
    intro acc groups h
    cases h
    simp
  | cons ep rest ih =>
    intro acc groups h
    match hfid : ep.feed_id with
    | none =>
      simp only [groupEpisodes, hfid] at h
      rw [ih acc groups h]
      simp [List.filter_cons, truthy, hfid]
    | some fid =>
      by_cases hemp : fid ≠ ""
      · match hguid : ep.guid with
        | none =>
          simp only [groupEpisodes, hfid, if_pos hemp, hguid] at h
          exact Except.noConfusion h
        | some g =>
          simp only [groupEpisodes, hfid, if_pos hemp, hguid] at h
          rw [ih _ groups h, addToGroup_total]
          have htr : truthy ep.feed_id = true := by simp [truthy, hfid, hemp]
          simp only [List.filter_cons, htr, if_true, List.length_cons]
          omega
      · rw [not_not] at hemp
        simp only [groupEpisodes, hfid, hemp, ne_eq, not_true_eq_false, if_false] at h
        rw [ih acc groups h]
        have htr : truthy ep.feed_id = false := by simp [truthy, hfid, hemp]
        simp [List.filter_cons, htr]

theorem applyGroups_count (writeOk : String → Bool) (now : Nat) :
    ∀ groups store, (applyGroups writeOk now store groups).2 = totalGuids groups := by
  intro groups
  induction groups with
  | nil => intro store; simp [applyGroups, totalGuids]
  | cons p rest ih =>
    intro store
    obtain ⟨fid, gs⟩ := p
    simp only [applyGroups, totalGuids, List.map_cons, List.sum_cons] at ih ⊢
    rw [ih]

theorem applyGroups_not_mem (writeOk : String → Bool) (now : Nat) :
    ∀ groups store fid, fid ∉ groupKeys groups →
      (applyGroups writeOk now store groups).1 fid = store fid := by
  intro groups
  induction groups with
  | nil => intro store fid _; rfl
  | cons p rest ih =>
    intro store fid h
    obtain ⟨f, gs⟩ := p
    simp only [groupKeys, List.map_cons, List.mem_cons] at h
    push_neg at h
    simp only [applyGroups]
    rw [ih _ fid (by simpa [groupKeys] using h.2)]
    cases hw : writeOk f with
    | true => simp [save_last_check, hw, h.1]
    | false => simp [save_last_check, hw]

theorem applyGroups_char (now : Nat) :
    ∀ groups store, (groupKeys groups).Nodup → ∀ fid,
      (applyGroups (fun _ => true) now store groups).1 fid =
        match findGroup fid groups with
        | some gs => .parsed { episodes := setUnion (loadRecord store fid).episodes gs,
                               last_check := now }
        | none => store fid := by
  intro groups
  induction groups with
  | nil => intro store _ fid; rfl
  | cons p rest ih =>
    intro store hnd fid
    obtain ⟨f, gs⟩ := p
    have hnd' : (groupKeys rest).Nodup ∧ f ∉ groupKeys rest := by
      simp only [groupKeys, List.map_cons, List.nodup_cons] at hnd
      exact ⟨hnd.2, hnd.1⟩
    by_cases hf : f = fid
    · subst hf
      simp only [applyGroups, findGroup, if_pos rfl]
      rw [applyGroups_not_mem _ _ rest _ f hnd'.2]
      simp [save_last_check]
    · have hfid_ne : fid ≠ f := fun h => hf h.symm
      simp only [applyGroups, findGroup, if_neg hf]
      rw [ih _ hnd'.1 fid]
      have hstore' : ∀ eps, (save_last_check true store f eps now) fid = store fid := by
        intro eps
        simp [save_last_check, hfid_ne]
      have hload : ∀ eps, loadRecord (save_last_check true store f eps now) fid =
          loadRecord store fid := by
        intro eps
        unfold loadRecord
        rw [hstore']
      cases hg : findGroup fid rest with
      | none => simp only [hg, hstore' _]
      | some gs' => simp only [hg, hload _]

theorem applyGroups_noWrite (now : Nat) :
    ∀ groups store, (applyGroups (fun _ => false) now store groups).1 = store := by
  intro groups
  induction groups with
  | nil => intro store; rfl
  | cons p rest ih =>
    intro store
    obtain ⟨f, gs⟩ := p
    simp only [applyGroups, save_last_check, Bool.false_eq_true, if_false]
    exact ih store

end FeedMonitorServer

/-! ## Helper lemmas: filtering, pagination, pipeline steps -/

theorem filter_map_graph {α β : Type} (f : α → β) (q : α → Bool) (q' : β → Bool)
    (h : ∀ a, q' (f a) = q a) : ∀ l : List α, (l.filter q).map f = (l.map f).filter q' := by
  intro l
  induction l with
  | nil => rfl
  | cons a rest ih =>
    simp only [List.filter_cons, List.map_cons, h]
    cases hq : q a <;> simp [hq, ih, List.filter_cons, h]

theorem range_flatMap_take {α : Type} (q : Nat) : ∀ (k : Nat) (l : List α),
    (List.range k).flatMap (fun i => (l.drop (i * q)).take q) = l.take (k * q) := by
  intro k
  induction k with
  | zero => intro l; simp
  | succ k ih =>
    intro l
    rw [List.range_succ, List.flatMap_append, ih]
    simp only [List.flatMap_cons, List.flatMap_nil, List.append_nil]
    rw [Nat.succ_mul, List.take_add]

theorem ceil_mul_ge (n q : Nat) (hq : 1 ≤ q) : n ≤ ((n + q - 1) / q) * q := by
  have h1 := Nat.div_add_mod (n + q - 1) q
  have h2 : (n + q - 1) % q < q := Nat.mod_lt _ (by omega)
  rw [Nat.mul_comm]
  generalize hd : q * ((n + q - 1) / q) = p at h1 ⊢
  generalize hm : (n + q - 1) % q = m at h1 h2
  omega

theorem episodeSteps_no_mark (att : Orchestrator.PipelineEpisode → Orchestrator.StageAttempts)
    (ep : Orchestrator.PipelineEpisode) :
    (Orchestrator.episodeSteps att ep).flatMap
      (fun s => match s with | Orchestrator.StepRecord.mark eps => eps | _ => []) = [] := by
  simp only [Orchestrator.episodeSteps]
  split
  · split
    · rfl
    · rfl
  · rfl

theorem stageSteps_no_mark (att : Orchestrator.PipelineEpisode → Orchestrator.StageAttempts) :
    ∀ l : List Orchestrator.PipelineEpisode,
      (l.flatMap (Orchestrator.episodeSteps att)).flatMap
        (fun s => match s with | Orchestrator.StepRecord.mark eps => eps | _ => []) = [] := by
  intro l
  induction l with
  | nil => rfl
  | cons ep rest ih =>
    simp only [List.flatMap_cons, List.flatMap_append]
    rw [episodeSteps_no_mark, ih]
    rfl

theorem markedRefs_pipeline (feed : Orchestrator.FeedCheckOutcome)
    (more : List Orchestrator.PipelineEpisode)
    (att : Orchestrator.PipelineEpisode → Orchestrator.StageAttempts) :
    Orchestrator.markedRefs (Orchestrator.execute_full_pipeline feed more att) =
      match feed with
      | .failure => []
      | .ok eps count pages =>
        if count = 0 then []
        else (Orchestrator.episodesToProcess eps pages more).map Orchestrator.toRef := by
  cases feed with
  | failure => rfl
  | ok eps count pages =>
    by_cases hc : count = 0
    · simp [Orchestrator.execute_full_pipeline, hc, Orchestrator.markedRefs]
    · simp only [Orchestrator.execute_full_pipeline, if_neg hc, Orchestrator.markedRefs]
      simp only [List.flatMap_cons, List.flatMap_append]
      rw [stageSteps_no_mark]
      simp [if_neg hc]

/-! ## Claim theorems -/

/-- C9: `load_last_check` is total and never errors — a missing state file, an
unreadable one (`IOError`), and invalid JSON (`json.JSONDecodeError`) all yield the
empty record with no processed guids and `last_check = 0`, instead of raising. -/
theorem load_last_check_total_default :
    FeedMonitorServer.load_last_check .missing = FeedMonitorServer.emptyLastCheck ∧
    FeedMonitorServer.load_last_check .unreadable = FeedMonitorServer.emptyLastCheck ∧
    FeedMonitorServer.load_last_check .invalidJson = FeedMonitorServer.emptyLastCheck ∧
    FeedMonitorServer.emptyLastCheck =
      { episodes := [], last_check := 0 : FeedMonitorServer.LastCheck } :=
  ⟨rfl, rfl, rfl, rfl⟩

/-- C5: the per-episode stage functions never let an exception escape: each is a
total function of its effect outcome, and whenever the effectful body fails
(`.error`, the `except Exception` branch) the returned dict has `simulated = true`
and `success = true`; `execute_transcription` moreover returns a simulated payload
on every path. -/
theorem stage_functions_return_simulated_fallback :
    (∀ (out : Except String Unit) (url : String),
      (Orchestrator.execute_transcription out url).simulated = true ∧
      (Orchestrator.execute_transcription out url).success = true) ∧
    (∀ (e text target_lang : String),
      (Orchestrator.execute_translation (.error e) text target_lang).simulated = true ∧
      (Orchestrator.execute_translation (.error e) text target_lang).success = true) ∧
    (∀ (e text voice : String),
      (Orchestrator.execute_tts (.error e) text voice).simulated = true ∧
      (Orchestrator.execute_tts (.error e) text voice).success = true) := by
  refine ⟨fun out url => ?_, fun e text target_lang => ⟨rfl, rfl⟩,
    fun e text voice => ⟨rfl, rfl⟩⟩
  cases out <;> exact ⟨rfl, rfl⟩

/-- C6 counterexample: the feed-monitor server's `get_feed_id` is not the full
cryptographic digest of the URL — at a concrete feed URL it differs from the full
MD5 hex digest it is cut from (12 characters against 32). -/
theorem get_feed_id_not_full_digest :
    FeedMonitorServer.get_feed_id "https://feeds.feedburner.com/oreilly/radar" ≠
      md5_hexdigest "https://feeds.feedburner.com/oreilly/radar" := by
  intro h
  have h12 := get_feed_id_server_length "https://feeds.feedburner.com/oreilly/radar"
  have h32 := md5_hexdigest_length "https://feeds.feedburner.com/oreilly/radar"
  rw [h] at h12
  rw [h12] at h32
  exact absurd h32 (by decide)

/-- C6 amended: both `get_feed_id` implementations are pure deterministic functions
of the URL; `feed_utils.py` returns the full 64-character SHA-256 hex digest, but
the feed-monitor MCP server returns only the first 12 hex characters (48 bits) of
the MD5 digest — a truncated checksum, not a full cryptographic digest (the full
MD5 hex digest has 32 characters). -/
theorem get_feed_id_deterministic_truncated (u v : String) (h : u = v) :
    (FeedMonitorServer.get_feed_id u = FeedMonitorServer.get_feed_id v ∧
      FeedUtils.get_feed_id u = FeedUtils.get_feed_id v) ∧
    FeedMonitorServer.get_feed_id u = String.mk ((md5_hexdigest u).data.take 12) ∧
    (FeedMonitorServer.get_feed_id u).length = 12 ∧
    (md5_hexdigest u).length = 32 ∧
    (FeedUtils.get_feed_id u).length = 64 := by
  subst h
  exact ⟨⟨rfl, rfl⟩, rfl, get_feed_id_server_length u, md5_hexdigest_length u,
    sha256_hexdigest_length u⟩

/-- Witness for C6 at the concrete URL `"https://example.com/feed.xml"`. -/
theorem get_feed_id_deterministic_truncated_witness :
    "https://example.com/feed.xml" = "https://example.com/feed.xml" ∧
    ((FeedMonitorServer.get_feed_id "https://example.com/feed.xml" =
        FeedMonitorServer.get_feed_id "https://example.com/feed.xml" ∧
      FeedUtils.get_feed_id "https://example.com/feed.xml" =
        FeedUtils.get_feed_id "https://example.com/feed.xml") ∧
    FeedMonitorServer.get_feed_id "https://example.com/feed.xml" =
      String.mk ((md5_hexdigest "https://example.com/feed.xml").data.take 12) ∧
    (FeedMonitorServer.get_feed_id "https://example.com/feed.xml").length = 12 ∧
    (md5_hexdigest "https://example.com/feed.xml").length = 32 ∧
    (FeedUtils.get_feed_id "https://example.com/feed.xml").length = 64) :=
  ⟨rfl, get_feed_id_deterministic_truncated _ _ rfl⟩

/-- Auxiliary: filtering on `guid ∈ cg ∧ guid ∉ prev` over a list all of whose
members have their guid in `cg`, then mapping a guid-preserving function, is the
same as mapping first and filtering on `guid ∉ prev`. -/
theorem filter_guid_diff (prev cg : List String)
    (f : FeedMonitorServer.Episode → FeedMonitorServer.Episode)
    (hf : ∀ ep, (f ep).guid = ep.guid) :
    ∀ cur : List FeedMonitorServer.Episode, (∀ ep ∈ cur, ep.guid ∈ cg) →
      (cur.filter (fun ep => ep.guid ∈ cg ∧ ep.guid ∉ prev)).map f =
        (cur.map f).filter (fun ep => ep.guid ∉ prev) := by
  intro cur
  induction cur with
  | nil => intro _; rfl
  | cons a rest ih =>
    intro h
    have ha : a.guid ∈ cg := h a (List.mem_cons_self a rest)
    have hrest := fun ep hm => h ep (List.mem_cons_of_mem a hm)
    simp only [List.filter_cons, List.map_cons, hf]
    by_cases hp : a.guid ∈ prev
    · simpa [ha, hp, hf] using ih hrest
    · simpa [ha, hp, hf] using ih hrest

/-- C2: both `check_feed_for_new_episodes` implementations return exactly the
candidate episodes (feed entries with a usable guid, in feed order, with
`feed_url`/`feed_id` metadata attached) whose guid is not among the stored
processed guids: the result is literally the order-preserving filter of the
candidate list, so no already-processed guid ever appears in it. -/
theorem check_feed_returns_exactly_unprocessed :
    (∀ (feed_url feed_title : String) (entries : List FeedMonitorServer.FeedEntry)
        (stored : FeedMonitorServer.StoredFile),
      FeedMonitorServer.check_feed_for_new_episodes feed_url feed_title entries stored =
        ((FeedMonitorServer.currentEpisodes feed_title entries).map
          (fun ep => { ep with feed_url := some feed_url, feed_id := some (FeedMonitorServer.get_feed_id feed_url) })).filter
          (fun ep => ep.guid ∉ (FeedMonitorServer.load_last_check stored).episodes) ∧
      ∀ ep ∈ FeedMonitorServer.check_feed_for_new_episodes feed_url feed_title entries stored,
        ep.guid ∉ (FeedMonitorServer.load_last_check stored).episodes) ∧
    (∀ (feed_url : String) (entries : List FeedUtils.Entry) (processed_guids : List String),
      FeedUtils.check_feed_for_new_episodes feed_url entries processed_guids =
        ((entries.filter (fun e => FeedUtils.entryGuid e ≠ "")).map
          (fun e => ({ entry := e, guid := FeedUtils.entryGuid e, feed_url := feed_url,
                       feed_id := FeedUtils.get_feed_id feed_url } : FeedUtils.UtilEpisode))).filter
          (fun e => e.guid ∉ processed_guids) ∧
      ∀ e ∈ FeedUtils.check_feed_for_new_episodes feed_url entries processed_guids,
        e.guid ∉ processed_guids) := by
  have hserver : ∀ (feed_url feed_title : String) (entries : List FeedMonitorServer.FeedEntry)
      (stored : FeedMonitorServer.StoredFile),
      FeedMonitorServer.check_feed_for_new_episodes feed_url feed_title entries stored =
        ((FeedMonitorServer.currentEpisodes feed_title entries).map
          (fun ep => { ep with feed_url := some feed_url, feed_id := some (FeedMonitorServer.get_feed_id feed_url) })).filter
          (fun ep => ep.guid ∉ (FeedMonitorServer.load_last_check stored).episodes) := by
    intro feed_url feed_title entries stored
    exact filter_guid_diff (FeedMonitorServer.load_last_check stored).episodes
      ((FeedMonitorServer.currentEpisodes feed_title entries).map (fun e => e.guid))
      (fun ep => { ep with feed_url := some feed_url, feed_id := some (FeedMonitorServer.get_feed_id feed_url) })
      (fun ep => rfl)
      (FeedMonitorServer.currentEpisodes feed_title entries)
      (fun ep hm => List.mem_map_of_mem _ hm)
  have hutils : ∀ (feed_url : String) (entries : List FeedUtils.Entry)
      (processed_guids : List String),
      FeedUtils.check_feed_for_new_episodes feed_url entries processed_guids =
        ((entries.filter (fun e => FeedUtils.entryGuid e ≠ "")).map
          (fun e => ({ entry := e, guid := FeedUtils.entryGuid e, feed_url := feed_url,
                       feed_id := FeedUtils.get_feed_id feed_url } : FeedUtils.UtilEpisode))).filter
          (fun e => e.guid ∉ processed_guids) := by
    intro feed_url entries processed_guids
    have step1 := filter_map_graph
      (fun p : FeedUtils.Entry × String =>
        ({ entry := p.1, guid := p.2, feed_url := feed_url,
           feed_id := FeedUtils.get_feed_id feed_url } : FeedUtils.UtilEpisode))
      (fun p => decide (p.2 ∉ processed_guids))
      (fun e => decide (e.guid ∉ processed_guids))
      (fun p => rfl)
      ((entries.filter (fun e => FeedUtils.entryGuid e ≠ "")).map
        (fun e => (e, FeedUtils.entryGuid e)))
    refine Eq.trans (Eq.trans (rfl :
      FeedUtils.check_feed_for_new_episodes feed_url entries processed_guids = _) step1) ?_
    rw [List.map_map]
    rfl
  refine ⟨fun u t es st => ⟨hserver u t es st, ?_⟩, fun u es pg => ⟨hutils u es pg, ?_⟩⟩
  · intro ep hm
    rw [hserver u t es st] at hm
    exact of_decide_eq_true (List.mem_filter.mp hm).2
  · intro e hm
    rw [hutils u es pg] at hm
    exact of_decide_eq_true (List.mem_filter.mp hm).2

/-- Witness for C2 at concrete inputs: one entry with guid `"g1"` against a record
already holding `"g0"`. -/
theorem check_feed_returns_exactly_unprocessed_witness :
    FeedMonitorServer.check_feed_for_new_episodes "https://example.com/feed.xml" "T"
        [witEntry] (.parsed { episodes := ["g0"], last_check := 5 }) =
      ((FeedMonitorServer.currentEpisodes "T" [witEntry]).map
        (fun ep => { ep with feed_url := some "https://example.com/feed.xml", feed_id := some (FeedMonitorServer.get_feed_id "https://example.com/feed.xml") })).filter
        (fun ep => ep.guid ∉ (FeedMonitorServer.load_last_check
          (.parsed { episodes := ["g0"], last_check := 5 })).episodes) :=
  (check_feed_returns_exactly_unprocessed.1 "https://example.com/feed.xml" "T"
    [witEntry] (.parsed { episodes := ["g0"], last_check := 5 })).1

/-- C7: `get_new_episodes` clamps the page size at 50 (`min per_page 50`), each page
is the corresponding contiguous slice of the episode list, and for any positive
requested page size, concatenating pages 1 through ceil(n / q) (over the effective
page size q) reproduces exactly the full episode list — no repeats, no omissions. -/
theorem get_new_episodes_pagination_spec (l : List FeedMonitorServer.Episode)
    (per_page : Nat) (hpp : 1 ≤ per_page) :
    (∀ page, FeedMonitorServer.get_new_episodes l page per_page =
      .ok { page := page, per_page := min per_page 50, total_episodes := l.length,
            total_pages := (l.length + min per_page 50 - 1) / min per_page 50,
            episodes := (l.drop ((page - 1) * min per_page 50)).take (min per_page 50) }) ∧
    min per_page 50 ≤ 50 ∧
    (List.range ((l.length + min per_page 50 - 1) / min per_page 50)).flatMap
      (fun i => FeedMonitorServer.pageEpisodesOf
        (FeedMonitorServer.get_new_episodes l (i + 1) per_page)) = l := by
  have hq : 1 ≤ min per_page 50 := le_min hpp (by omega)
  have hne : ¬ (min per_page 50 = 0) := by omega
  have heq : ∀ page, FeedMonitorServer.get_new_episodes l page per_page =
      .ok { page := page, per_page := min per_page 50, total_episodes := l.length,
            total_pages := (l.length + min per_page 50 - 1) / min per_page 50,
            episodes := (l.drop ((page - 1) * min per_page 50)).take (min per_page 50) } := by
    intro page
    simp only [FeedMonitorServer.get_new_episodes, if_neg hne]
  refine ⟨heq, Nat.min_le_right _ _, ?_⟩
  have hpg : ∀ i, FeedMonitorServer.pageEpisodesOf
      (FeedMonitorServer.get_new_episodes l (i + 1) per_page) =
      (l.drop (i * min per_page 50)).take (min per_page 50) := by
    intro i
    rw [heq (i + 1)]
    simp [FeedMonitorServer.pageEpisodesOf]
  simp only [hpg]
  rw [range_flatMap_take]
  exact List.take_of_length_le (ceil_mul_ge l.length _ hq)

/-- Witness for C7: three concrete episodes paged with requested size 2. -/
theorem get_new_episodes_pagination_spec_witness :
    1 ≤ 2 ∧
    (List.range (((List.replicate 3 (FeedMonitorServer.entryEpisode "T" witEntry)).length +
        min 2 50 - 1) / min 2 50)).flatMap
      (fun i => FeedMonitorServer.pageEpisodesOf
        (FeedMonitorServer.get_new_episodes
          (List.replicate 3 (FeedMonitorServer.entryEpisode "T" witEntry)) (i + 1) 2)) =
      List.replicate 3 (FeedMonitorServer.entryEpisode "T" witEntry) :=
  ⟨by decide,
    (get_new_episodes_pagination_spec
      (List.replicate 3 (FeedMonitorServer.entryEpisode "T" witEntry)) 2 (by decide)).2.2⟩

/-- Auxiliary: an episode with a truthy `feed_id` but no `guid` key makes the
grouping loop raise (`KeyError`), whatever else the list contains. -/
theorem groupEpisodes_err (eps : List FeedMonitorServer.EpisodeRef) :
    ∀ acc, (∃ ep ∈ eps, FeedMonitorServer.truthy ep.feed_id = true ∧ ep.guid = none) →
      ∃ msg, FeedMonitorServer.groupEpisodes eps acc = .error msg := by
  induction eps with
  | nil =>
    intro acc h
    obtain ⟨ep, hm, _⟩ := h
    cases hm
  | cons ep rest ih =>
    intro acc h
    obtain ⟨e, hm, htr, hgu⟩ := h
    rcases List.mem_cons.mp hm with rfl | hmr
    · match hfid : e.feed_id with
      | none => simp [FeedMonitorServer.truthy, hfid] at htr
      | some fid =>
        have hf : fid ≠ "" := by
          intro hc
          subst hc
          simp [FeedMonitorServer.truthy, hfid] at htr
        exact ⟨"KeyError: guid", by
          simp only [FeedMonitorServer.groupEpisodes, hfid, if_pos hf, hgu]⟩
    · have hex : ∃ e' ∈ rest, FeedMonitorServer.truthy e'.feed_id = true ∧ e'.guid = none :=
        ⟨e, hmr, htr, hgu⟩
      match hfid : ep.feed_id with
      | none => simpa only [FeedMonitorServer.groupEpisodes, hfid] using ih _ hex
      | some fid =>
        by_cases hf : fid ≠ ""
        · match hguid : ep.guid with
          | none => exact ⟨"KeyError: guid", by
              simp only [FeedMonitorServer.groupEpisodes, hfid, if_pos hf, hguid]⟩
          | some g =>
            simpa only [FeedMonitorServer.groupEpisodes, hfid, if_pos hf, hguid] using ih _ hex
        · rw [not_not] at hf
          simpa only [FeedMonitorServer.groupEpisodes, hfid, hf, ne_eq, not_true_eq_false,
            if_false] using ih _ hex

/-- Auxiliary: when no episode passes the `if feed_id:` test, the grouping loop
leaves the accumulator untouched and succeeds. -/
theorem groupEpisodes_skip (eps : List FeedMonitorServer.EpisodeRef) :
    ∀ acc, (∀ ep ∈ eps, FeedMonitorServer.truthy ep.feed_id = false) →
      FeedMonitorServer.groupEpisodes eps acc = .ok acc := by
  induction eps with
  | nil => intro acc _; rfl
  | cons ep rest ih =>
    intro acc h
    have hep := h ep (List.mem_cons_self ep rest)
    have hrest := fun e hm => h e (List.mem_cons_of_mem ep hm)
    match hfid : ep.feed_id with
    | none => simpa only [FeedMonitorServer.groupEpisodes, hfid] using ih _ hrest
    | some fid =>
      have hf : fid = "" := by
        rw [hfid] at hep
        by_contra hc
        simp [FeedMonitorServer.truthy, hc] at hep
      simpa only [FeedMonitorServer.groupEpisodes, hfid, hf, ne_eq, not_true_eq_false,
        if_false] using ih _ hrest

/-- C8 counterexample: an episode that lacks the required `feed_id` field is not
rejected — `mark_episodes_processed` silently skips it and replies with a success
payload counting zero episodes, leaving the store untouched. -/
theorem missing_feed_id_silently_skipped :
    (FeedMonitorServer.mark_episodes_processed (fun _ => true) 0 emptyStore
      [witRefNoFid]).2 = .success 0 0 ∧
    (FeedMonitorServer.mark_episodes_processed (fun _ => true) 0 emptyStore
      [witRefNoFid]).1 = emptyStore :=
  ⟨rfl, rfl⟩

/-- C8 amended: the tool rejects an empty episode list with a client-visible error,
and an episode that has a truthy `feed_id` but no `guid` key produces an error reply
(via the caught `KeyError`); but an episode whose `feed_id` is missing or empty is
silently skipped rather than rejected — a batch of such episodes yields
`success` with zero counts and no store change — and `feed_url` is never validated. -/
theorem mark_validation_behaviour :
    (∀ (w : String → Bool) (t : Nat) (store : FeedMonitorServer.Store),
      (FeedMonitorServer.mark_episodes_processed w t store []).2 =
        .error "episodes list is required") ∧
    (∀ (w : String → Bool) (t : Nat) (store : FeedMonitorServer.Store)
        (eps : List FeedMonitorServer.EpisodeRef),
      (∃ ep ∈ eps, FeedMonitorServer.truthy ep.feed_id = true ∧ ep.guid = none) →
      ∃ msg, (FeedMonitorServer.mark_episodes_processed w t store eps).2 = .error msg) ∧
    (∀ (w : String → Bool) (t : Nat) (store : FeedMonitorServer.Store)
        (eps : List FeedMonitorServer.EpisodeRef), eps ≠ [] →
      (∀ ep ∈ eps, FeedMonitorServer.truthy ep.feed_id = false) →
      (FeedMonitorServer.mark_episodes_processed w t store eps).2 = .success 0 0 ∧
      (FeedMonitorServer.mark_episodes_processed w t store eps).1 = store) := by
  refine ⟨fun w t store => rfl, fun w t store eps hex => ?_, fun w t store eps hne hall => ?_⟩
  · obtain ⟨e, hm, htr, hgu⟩ := hex
    have hne' : eps.isEmpty = false := by
      cases eps with
      | nil => cases hm
      | cons a l => rfl
    obtain ⟨msg, hmsg⟩ := groupEpisodes_err eps [] ⟨e, hm, htr, hgu⟩
    refine ⟨msg, ?_⟩
    simp only [FeedMonitorServer.mark_episodes_processed, hne', Bool.false_eq_true,
      if_false, hmsg]
  · have hne' : eps.isEmpty = false := by
      cases eps with
      | nil => exact absurd rfl hne
      | cons a l => rfl
    have hsk := groupEpisodes_skip eps [] hall
    constructor
    · simp only [FeedMonitorServer.mark_episodes_processed, hne', Bool.false_eq_true,
        if_false, hsk]
      rfl
    · simp only [FeedMonitorServer.mark_episodes_processed, hne', Bool.false_eq_true,
        if_false, hsk]
      rfl

/-- Witness for C8: a singleton batch whose episode lacks `feed_id` is a non-empty
list of non-truthy episodes, and the tool replies success with zero counts. -/
theorem mark_validation_behaviour_witness :
    ([witRefNoFid] : List FeedMonitorServer.EpisodeRef) ≠ [] ∧
    (FeedMonitorServer.mark_episodes_processed (fun _ => true) 7 emptyStore
      [witRefNoFid]).2 = .success 0 0 ∧
    (FeedMonitorServer.mark_episodes_processed (fun _ => true) 7 emptyStore
      [witRefNoFid]).1 = emptyStore :=
  ⟨by decide,
    (mark_validation_behaviour.2.2 (fun _ => true) 7 emptyStore [witRefNoFid]
      (by decide) (by decide)).1,
    (mark_validation_behaviour.2.2 (fun _ => true) 7 emptyStore [witRefNoFid]
      (by decide) (by decide)).2⟩

/-- C10: for a non-empty batch whose truthy-`feed_id` episodes all carry a guid,
the reply's `processed_episodes` equals the number of input episodes with a truthy
(present, non-empty) `feed_id` — counting an episode even when its guid is already
stored, since the count never consults the store — `feeds_updated` equals the
number of distinct truthy feed ids, and any feed id not appearing among the
truthy feed ids keeps its stored record unchanged (episodes lacking `feed_id`
contribute to nothing). -/
theorem processed_count_spec (w : String → Bool) (t : Nat)
    (store : FeedMonitorServer.Store) (eps : List FeedMonitorServer.EpisodeRef)
    (hne : eps ≠ [])
    (hguid : ∀ ep ∈ eps, FeedMonitorServer.truthy ep.feed_id → ep.guid.isSome) :
    (FeedMonitorServer.mark_episodes_processed w t store eps).2 =
      .success ((eps.filter (fun ep => FeedMonitorServer.truthy ep.feed_id)).length)
        ((addNew [] (FeedMonitorServer.truthyFids eps)).length) ∧
    ∀ fid, fid ∉ FeedMonitorServer.truthyFids eps →
      (FeedMonitorServer.mark_episodes_processed w t store eps).1 fid = store fid := by
  have hne' : eps.isEmpty = false := by
    cases eps with
    | nil => exact absurd rfl hne
    | cons a l => rfl
  obtain ⟨groups, hg⟩ := FeedMonitorServer.groupEpisodes_ok eps hguid []
  have hkeys := FeedMonitorServer.groupEpisodes_keys eps [] groups hg
  have htot := FeedMonitorServer.groupEpisodes_total eps [] groups hg
  constructor
  · simp only [FeedMonitorServer.mark_episodes_processed, hne', Bool.false_eq_true,
      if_false, hg]
    rw [FeedMonitorServer.applyGroups_count]
    have hlen : groups.length = (FeedMonitorServer.groupKeys groups).length := by
      simp [FeedMonitorServer.groupKeys]
    rw [htot, hlen, hkeys]
    simp [FeedMonitorServer.totalGuids, FeedMonitorServer.groupKeys]
  · intro fid hfid
    simp only [FeedMonitorServer.mark_episodes_processed, hne', Bool.false_eq_true,
      if_false, hg]
    apply FeedMonitorServer.applyGroups_not_mem
    rw [hkeys]
    intro hcon
    rcases (addNew_mem _ _ _).mp hcon with h | h
    · cases h
    · exact hfid h

/-- Witness for C10: one fully-specified episode reference yields `success 1 1`. -/
theorem processed_count_spec_witness :
    ([witRef] : List FeedMonitorServer.EpisodeRef) ≠ [] ∧
    (FeedMonitorServer.mark_episodes_processed (fun _ => true) 3 emptyStore [witRef]).2 =
      .success (([witRef].filter (fun ep => FeedMonitorServer.truthy ep.feed_id)).length)
        ((addNew [] (FeedMonitorServer.truthyFids [witRef])).length) :=
  ⟨by decide,
    (processed_count_spec (fun _ => true) 3 emptyStore [witRef] (by decide) (by decide)).1⟩

/-- C4 counterexample: with every write failing (the `IOError` branch of
`save_last_check` firing), `mark_episodes_processed` still replies
`success, processed_episodes = 1, feeds_updated = 1` at a concrete one-episode
input, and the store keeps no record of the episode — the failure is not reported. -/
theorem mark_reports_success_on_failed_write :
    (FeedMonitorServer.mark_episodes_processed (fun _ => false) 0 emptyStore [witRef]).2 =
      .success 1 1 ∧
    (FeedMonitorServer.mark_episodes_processed (fun _ => false) 0 emptyStore
      [witRef]).1 "feed-1" = .missing :=
  ⟨rfl, rfl⟩

/-- C4 amended: a persistence failure is swallowed, not escalated —
`save_last_check` catches the `IOError` and only logs it, so when every write
fails `mark_episodes_processed` still returns a success payload (with its usual
counts) while the persisted store is left completely unchanged. -/
theorem mark_swallows_write_failure (t : Nat) (store : FeedMonitorServer.Store)
    (eps : List FeedMonitorServer.EpisodeRef) (hne : eps ≠ [])
    (hguid : ∀ ep ∈ eps, FeedMonitorServer.truthy ep.feed_id → ep.guid.isSome) :
    (∃ n m, (FeedMonitorServer.mark_episodes_processed (fun _ => false) t store eps).2 =
      .success n m) ∧
    (FeedMonitorServer.mark_episodes_processed (fun _ => false) t store eps).1 = store := by
  have hne' : eps.isEmpty = false := by
    cases eps with
    | nil => exact absurd rfl hne
    | cons a l => rfl
  obtain ⟨groups, hg⟩ := FeedMonitorServer.groupEpisodes_ok eps hguid []
  constructor
  · refine ⟨(FeedMonitorServer.applyGroups (fun _ => false) t store groups).2,
      groups.length, ?_⟩
    simp only [FeedMonitorServer.mark_episodes_processed, hne', Bool.false_eq_true,
      if_false, hg]
  · simp only [FeedMonitorServer.mark_episodes_processed, hne', Bool.false_eq_true,
      if_false, hg]
    exact FeedMonitorServer.applyGroups_noWrite t groups store

/-- Witness for C4's amended claim: the one-episode batch with all writes failing. -/
theorem mark_swallows_write_failure_witness :
    ([witRef] : List FeedMonitorServer.EpisodeRef) ≠ [] ∧
    (FeedMonitorServer.mark_episodes_processed (fun _ => false) 0 emptyStore
      [witRef]).1 = emptyStore :=
  ⟨by decide,
    (mark_swallows_write_failure 0 emptyStore [witRef] (by decide) (by decide)).2⟩

/-- C3: calling `mark_episodes_processed` twice with the same episodes (all writes
succeeding) is not an error and is a no-op on the persisted guid sets: both calls
reply with the same success payload, every feed's stored episode list after the
second call equals the one after the first call, and the stored lists carry no
duplicates (given that the pre-existing store does not). -/
theorem mark_processed_idempotent (t₁ t₂ : Nat) (store : FeedMonitorServer.Store)
    (eps : List FeedMonitorServer.EpisodeRef) (hne : eps ≠ [])
    (hguid : ∀ ep ∈ eps, FeedMonitorServer.truthy ep.feed_id → ep.guid.isSome)
    (hstore : ∀ fid d, store fid = .parsed d → d.episodes.Nodup) :
    (∃ n m,
      (FeedMonitorServer.mark_episodes_processed (fun _ => true) t₁ store eps).2 =
        .success n m ∧
      (FeedMonitorServer.mark_episodes_processed (fun _ => true) t₂
        (FeedMonitorServer.mark_episodes_processed (fun _ => true) t₁ store eps).1
        eps).2 = .success n m) ∧
    (∀ fid,
      (FeedMonitorServer.loadRecord
        (FeedMonitorServer.mark_episodes_processed (fun _ => true) t₂
          (FeedMonitorServer.mark_episodes_processed (fun _ => true) t₁ store eps).1
          eps).1 fid).episodes =
      (FeedMonitorServer.loadRecord
        (FeedMonitorServer.mark_episodes_processed (fun _ => true) t₁ store eps).1
        fid).episodes) ∧
    (∀ fid, (FeedMonitorServer.loadRecord
      (FeedMonitorServer.mark_episodes_processed (fun _ => true) t₁ store eps).1
      fid).episodes.Nodup) := by
  have hne' : eps.isEmpty = false := by
    cases eps with
    | nil => exact absurd rfl hne
    | cons a l => rfl
  obtain ⟨groups, hg⟩ := FeedMonitorServer.groupEpisodes_ok eps hguid []
  have hkeys := FeedMonitorServer.groupEpisodes_keys eps [] groups hg
  have hknd : (FeedMonitorServer.groupKeys groups).Nodup := by
    rw [hkeys]
    exact addNew_nodup _ _ List.nodup_nil
  have hm1 : FeedMonitorServer.mark_episodes_processed (fun _ => true) t₁ store eps =
      ((FeedMonitorServer.applyGroups (fun _ => true) t₁ store groups).1,
        .success (FeedMonitorServer.applyGroups (fun _ => true) t₁ store groups).2
          groups.length) := by
    simp only [FeedMonitorServer.mark_episodes_processed, hne', Bool.false_eq_true,
      if_false, hg]
  have hm2 : ∀ st : FeedMonitorServer.Store,
      FeedMonitorServer.mark_episodes_processed (fun _ => true) t₂ st eps =
      ((FeedMonitorServer.applyGroups (fun _ => true) t₂ st groups).1,
        .success (FeedMonitorServer.applyGroups (fun _ => true) t₂ st groups).2
          groups.length) := by
    intro st
    simp only [FeedMonitorServer.mark_episodes_processed, hne', Bool.false_eq_true,
      if_false, hg]
  refine ⟨⟨FeedMonitorServer.totalGuids groups, groups.length, ?_, ?_⟩, ?_, ?_⟩
  · simp only [hm1, FeedMonitorServer.applyGroups_count]
  · simp only [hm1, hm2, FeedMonitorServer.applyGroups_count]
  · intro fid
    simp only [hm1, hm2]
    have ha1 := FeedMonitorServer.applyGroups_char t₁ groups store hknd fid
    have ha2 := FeedMonitorServer.applyGroups_char t₂ groups
      (FeedMonitorServer.applyGroups (fun _ => true) t₁ store groups).1 hknd fid
    cases hfg : FeedMonitorServer.findGroup fid groups with
    | none =>
      simp only [hfg] at ha1 ha2
      unfold FeedMonitorServer.loadRecord
      rw [ha2]
    | some gs =>
      simp only [hfg] at ha1 ha2
      have e1 : FeedMonitorServer.loadRecord
          (FeedMonitorServer.applyGroups (fun _ => true) t₁ store groups).1 fid =
          { episodes := setUnion (FeedMonitorServer.loadRecord store fid).episodes gs,
            last_check := t₁ } := by
        unfold FeedMonitorServer.loadRecord
        rw [ha1]
        rfl
      have e2 : FeedMonitorServer.loadRecord
          (FeedMonitorServer.applyGroups (fun _ => true) t₂
            (FeedMonitorServer.applyGroups (fun _ => true) t₁ store groups).1 groups).1 fid =
          { episodes := setUnion (FeedMonitorServer.loadRecord
              (FeedMonitorServer.applyGroups (fun _ => true) t₁ store groups).1 fid).episodes
              gs,
            last_check := t₂ } := by
        unfold FeedMonitorServer.loadRecord
        rw [ha2]
        rfl
      simp only [e2, e1]
      exact setUnion_idem _ _
  · intro fid
    rw [hm1]
    have ha1 := FeedMonitorServer.applyGroups_char t₁ groups store hknd fid
    cases hfg : FeedMonitorServer.findGroup fid groups with
    | none =>
      simp only [hfg] at ha1
      unfold FeedMonitorServer.loadRecord
      rw [ha1]
      cases hsf : store fid with
      | parsed d =>
        have := hstore fid d hsf
        simpa [FeedMonitorServer.load_last_check] using this
      | missing => simp [FeedMonitorServer.load_last_check, FeedMonitorServer.emptyLastCheck]
      | unreadable => simp [FeedMonitorServer.load_last_check, FeedMonitorServer.emptyLastCheck]
      | invalidJson => simp [FeedMonitorServer.load_last_check, FeedMonitorServer.emptyLastCheck]
    | some gs =>
      simp only [hfg] at ha1
      unfold FeedMonitorServer.loadRecord
      rw [ha1]
      simpa [FeedMonitorServer.load_last_check] using setUnion_nodup
        (FeedMonitorServer.loadRecord store fid).episodes gs

/-- Witness for C3: the one-episode batch against the empty store. -/
theorem mark_processed_idempotent_witness :
    ([witRef] : List FeedMonitorServer.EpisodeRef) ≠ [] ∧
    (∀ fid, (FeedMonitorServer.loadRecord
      (FeedMonitorServer.mark_episodes_processed (fun _ => true) 1 emptyStore
        [witRef]).1 fid).episodes.Nodup) :=
  ⟨by decide,
    (mark_processed_idempotent 1 2 emptyStore [witRef] (by decide) (by decide)
      (fun fid d h => FeedMonitorServer.StoredFile.noConfusion h)).2.2⟩

/-- C1 counterexample: at a concrete one-episode run where the translation agent
replies `simulated: true, success: false` (so the Translate stage fails and the
Synthesize stage is skipped), the orchestrator nevertheless passes that episode's
ref to `mark_episodes_processed` — it is not left eligible for reprocessing. -/
theorem mark_called_despite_translation_failure :
    Orchestrator.toRef cexEpisode ∈ Orchestrator.markedRefs
      (Orchestrator.execute_full_pipeline (.ok [cexEpisode] 1 1) [] cexAttempts) ∧
    (Orchestrator.execute_translation (cexAttempts cexEpisode).translation
      (Orchestrator.execute_transcription (cexAttempts cexEpisode).transcription
        (Orchestrator.audioUrlOf cexEpisode)).transcription "en").success = false ∧
    (Orchestrator.execute_translation (cexAttempts cexEpisode).translation
      (Orchestrator.execute_transcription (cexAttempts cexEpisode).transcription
        (Orchestrator.audioUrlOf cexEpisode)).transcription "en").simulated = true := by
  refine ⟨?_, rfl, rfl⟩
  have h : Orchestrator.markedRefs
      (Orchestrator.execute_full_pipeline (.ok [cexEpisode] 1 1) [] cexAttempts) =
      [Orchestrator.toRef cexEpisode] := by
    rw [markedRefs_pipeline]
    simp [Orchestrator.episodesToProcess]
  rw [h]
  exact List.mem_singleton.mpr rfl

/-- C1 amended: the orchestrator calls Mark-Processed exactly once per run, after
the per-episode loop, with the refs of the whole `episodes_to_process` batch —
irrespective of the per-episode stage outcomes, so an episode whose Translate
stage failed is marked all the same; only a feed-check failure or an empty
feed-check skips the marking step entirely. -/
theorem pipeline_marks_whole_batch (eps : List Orchestrator.PipelineEpisode)
    (count pages : Nat) (more : List Orchestrator.PipelineEpisode)
    (att : Orchestrator.PipelineEpisode → Orchestrator.StageAttempts)
    (hc : count ≠ 0) :
    Orchestrator.markedRefs
      (Orchestrator.execute_full_pipeline (.ok eps count pages) more att) =
      (Orchestrator.episodesToProcess eps pages more).map Orchestrator.toRef ∧
    (∀ ep ∈ Orchestrator.episodesToProcess eps pages more,
      Orchestrator.toRef ep ∈ Orchestrator.markedRefs
        (Orchestrator.execute_full_pipeline (.ok eps count pages) more att)) ∧
    Orchestrator.markedRefs (Orchestrator.execute_full_pipeline .failure more att) = [] ∧
    Orchestrator.markedRefs
      (Orchestrator.execute_full_pipeline (.ok eps 0 pages) more att) = [] := by
  have h1 : Orchestrator.markedRefs
      (Orchestrator.execute_full_pipeline (.ok eps count pages) more att) =
      (Orchestrator.episodesToProcess eps pages more).map Orchestrator.toRef := by
    rw [markedRefs_pipeline]
    simp [hc]
  refine ⟨h1, ?_, by rw [markedRefs_pipeline], by rw [markedRefs_pipeline]; simp⟩
  intro ep hm
  rw [h1]
  exact List.mem_map_of_mem _ hm

/-- Witness for C1's amended claim at the concrete one-episode run. -/
theorem pipeline_marks_whole_batch_witness :
    (1 : Nat) ≠ 0 ∧
    Orchestrator.markedRefs
      (Orchestrator.execute_full_pipeline (.ok [cexEpisode] 1 1) [] cexAttempts) =
      (Orchestrator.episodesToProcess [cexEpisode] 1 []).map Orchestrator.toRef :=
  ⟨by decide,
    (pipeline_marks_whole_batch [cexEpisode] 1 1 [] cexAttempts (by decide)).1⟩
